import Mathlib

/-!
Shallow embedding of the symbol-translation subsystem (`service/symbol/file.go`)
and the order-normalization conversion (`convert/websocket.go`) of the
bfxfixgw repository, together with theorems settling the specification's
claims about them.

Modelling conventions:
* Go strings are Lean `String`s; the Go standard-library string helpers used
  by the code (`strings.HasPrefix`, `strings.HasSuffix`, `strings.Split`,
  `strings.ToLower`, slicing `line[1:len(line)-1]`) are re-implemented below
  on the character list `String.data` so that all definitions reduce in the
  kernel.  The configuration grammar is pure ASCII (`[`, `]`, `=`,
  `passthrough`, `true`), where byte slicing and character slicing agree.
* Go `map[string]T` is modelled as an association list with unique keys:
  `setEntry` overwrites in place (preserving the map's one-binding-per-key
  semantics) and `getEntry` looks a key up.  Iteration order of a Go map is
  unspecified; the model's list order is one fixed determinization of it,
  and no confirmed theorem below depends on that order.
* Go `float64` arithmetic is abstracted as a commutative ring `α`,
  `strconv.ParseFloat` as a parameter `pf : String → Option α`
  (`none` = parse error), and the `int64(·)` conversion as a parameter
  `trunc : α → Int`.  The only float operations the converted code performs
  are multiplication by `±1` and the `int64` cast, so a ring is a faithful
  abstraction.  `parseIntStr` below is one concrete instance of `pf`
  (decimal integer strings, a sublanguage accepted by `ParseFloat`) used to
  run the model on closed inputs.
* A Go `(string, error)` return is modelled as `Option String`:
  `some s` for a `nil` error, `none` for the error return.
-/

/-- Splits a character list at every occurrence of `sep`; models
`strings.Split` (which never returns an empty list: splitting the empty
string yields `[""]`). -/
def splitOnChar (sep : Char) : List Char → List (List Char)
  | [] => [[]]
  | c :: rest =>
    let r := splitOnChar sep rest
    if c = sep then [] :: r
    else
      match r with
      | [] => [[c]]
      | g :: gs => (c :: g) :: gs

/-- Models `strings.Split(line, "=")`. -/
def splitEq (s : String) : List String :=
  (splitOnChar '=' s.data).map (fun cs => ⟨cs⟩)

/-- Models `strings.HasPrefix(line, "[")`. -/
def hasPrefixLB (s : String) : Bool :=
  match s.data with
  | c :: _ => c = '['
  | [] => false

/-- Models `strings.HasSuffix(line, "]")`. -/
def hasSuffixRB (s : String) : Bool :=
  match s.data.getLast? with
  | some c => c = ']'
  | none => false

/-- Models the slice `line[1 : len(line)-1]` for a line that starts with `[`
and ends with `]` (both one-byte characters, so byte and character slicing
agree). -/
def trimBrackets (s : String) : String :=
  ⟨(s.data.drop 1).dropLast⟩

/-- ASCII lowercasing of one character; `strings.ToLower` restricted to the
characters that can occur in a case-insensitive match against the ASCII
keywords `passthrough` / `true` (non-ASCII characters can never lowercase to
an ASCII letter, so the comparisons below are unaffected). -/
def lowerChar (c : Char) : Char :=
  if 'A' ≤ c ∧ c ≤ 'Z' then Char.ofNat (c.toNat + 32) else c

/-- Models `strings.ToLower`. -/
def toLowerStr (s : String) : String :=
  ⟨s.data.map lowerChar⟩

/-- Association-list update with overwrite; models `m[k] = v` on a Go map. -/
def setEntry {α : Type} : List (String × α) → String → α → List (String × α)
  | [], k, v => [(k, v)]
  | (k', v') :: rest, k, v =>
    if k' = k then (k, v) :: rest else (k', v') :: setEntry rest k v

/-- Association-list lookup; models `v, ok := m[k]` on a Go map. -/
def getEntry {α : Type} : List (String × α) → String → Option α
  | [], _ => none
  | (k', v') :: rest, k => if k' = k then some v' else getEntry rest k

/-- `symbolset` of `service/symbol/file.go`: the per-counterparty mapping
from Bitfinex symbol to counterparty symbol plus the passthrough flag. -/
structure Symbolset where
  symbols : List (String × String)
  passthrough : Bool
deriving DecidableEq

/-- `newSymbolset()`: empty mapping, passthrough false (Go zero value). -/
def newSymbolset : Symbolset :=
  { symbols := [], passthrough := false }

/-- `(*symbolset).set`. -/
def Symbolset.set (ss : Symbolset) (k v : String) : Symbolset :=
  { ss with symbols := setEntry ss.symbols k v }

/-- `(*symbolset).get`. -/
def Symbolset.get (ss : Symbolset) (k : String) : Option String :=
  getEntry ss.symbols k

/-- `FileSymbology`: the parse-time cursor `counterparty` and the table
`counterparties`.  The `sync.Mutex` field only serializes queries and has no
functional content, so it is not modelled. -/
structure FileSymbology where
  counterparty : String
  counterparties : List (String × Symbolset)
deriving DecidableEq

/-- `(*FileSymbology).parse`, one configuration line:
if the line starts with `[` and ends with `]` the cursor is set to the
bracket-trimmed name; the line is then split on `=`; with fewer than two
segments the function returns; otherwise the current cursor's symbol set is
fetched (created if absent), and either the passthrough flag is set (when the
first two segments are `passthrough`/`true` case-insensitively) or the
first segment is mapped to the second. -/
def parse (f : FileSymbology) (line : String) : FileSymbology :=
  let f1 :=
    if hasPrefixLB line && hasSuffixRB line then
      { f with counterparty := trimBrackets line }
    else f
  match splitEq line with
  | s0 :: s1 :: _ =>
    let symbols := (getEntry f1.counterparties f1.counterparty).getD newSymbolset
    let symbols1 :=
      if toLowerStr s0 = "passthrough" ∧ toLowerStr s1 = "true" then
        { symbols with passthrough := true }
      else
        symbols.set s0 s1
    { f1 with counterparties := setEntry f1.counterparties f1.counterparty symbols1 }
  | _ => f1

/-- The parsing loop of `NewFileSymbology` (the file has already been read
and split into lines; I/O failure aborts before any parsing): fold `parse`
over the lines starting from the zero-valued `FileSymbology`. -/
def parseLines (lines : List String) : FileSymbology :=
  lines.foldl parse { counterparty := "", counterparties := [] }

/-- The linear scan of `ToBitfinex`: first key whose value equals `symbol`. -/
def findKeyByValue : List (String × String) → String → Option String
  | [], _ => none
  | (bfx, cp) :: rest, symbol =>
    if cp = symbol then some bfx else findKeyByValue rest symbol

/-- `(*FileSymbology).ToBitfinex` (spec name `ToExchange`): `none` models the
error return. -/
def toBitfinex (f : FileSymbology) (symbol counterparty : String) : Option String :=
  match getEntry f.counterparties counterparty with
  | none => none
  | some symset =>
    if symset.passthrough then some symbol
    else findKeyByValue symset.symbols symbol

/-- `(*FileSymbology).FromBitfinex` (spec name `ToCounterparty`): `none`
models the error return. -/
def fromBitfinex (f : FileSymbology) (symbol counterparty : String) : Option String :=
  match getEntry f.counterparties counterparty with
  | none => none
  | some symset =>
    if symset.passthrough then some symbol
    else symset.get symbol

/-- The v1 order record as read by `OrderFromV1Order`: exactly the fields of
`bfxv1.Order` that the conversion touches. -/
structure V1Order where
  id : Int
  symbol : String
  isHidden : Bool
  timestamp : String
  price : String
  avgExecutionPrice : String
  side : String
  originalAmount : String
  remainingAmount : String
  isCanceled : Bool
  isLive : Bool
  type : String
deriving DecidableEq

/-- The canonical order statuses the conversion can produce: the two
`bitfinex` v2 constants it assigns, plus the unset zero value. -/
inductive OrderStatus where
  | unset
  | active
  | canceled
deriving DecidableEq

/-- The canonical order types the conversion can produce: the five
`bitfinex` v2 constants it assigns, plus the unset zero value. -/
inductive OrderType where
  | unset
  | market
  | limit
  | exchangeLimit
  | stop
  | trailingStop
deriving DecidableEq

/-- The fields of the v2 `bitfinex.Order` that `OrderFromV1Order` writes,
with numeric fields in the abstract ring `α` standing for `float64`. -/
structure Order (α : Type) where
  id : Int
  symbol : String
  hidden : Bool
  mtsCreated : Int
  mtsUpdated : Int
  price : α
  priceAvg : α
  status : OrderStatus
  amountOrig : α
  amount : α
  type : OrderType
deriving DecidableEq

/-- The `switch o.Type` mapping at the end of `OrderFromV1Order`;
an unlisted string leaves the zero value. -/
def typeFromString (t : String) : OrderType :=
  if t = "market" then OrderType.market
  else if t = "limit" then OrderType.limit
  else if t = "exchange limit" then OrderType.exchangeLimit
  else if t = "stop" then OrderType.stop
  else if t = "trailing-stop" then OrderType.trailingStop
  else OrderType.unset

/-- `OrderFromV1Order` of `convert/websocket.go`.  `pf` abstracts
`strconv.ParseFloat(·, 64)` (`none` = error, in which case the conversion
aborts with no object, modelled as `none`); `trunc` abstracts the `int64(·)`
cast applied to the parsed timestamp.  The five parses happen in source
order: timestamp, price, average execution price, original amount, remaining
amount.  The status `switch` recognizes `IsCanceled` first, then `IsLive`;
the sign multiplier is `-1` exactly for side `"sell"`. -/
def orderFromV1Order {α : Type} [CommRing α] (pf : String → Option α)
    (trunc : α → Int) (o : V1Order) : Option (Order α) :=
  match pf o.timestamp with
  | none => none
  | some ts =>
    match pf o.price with
    | none => none
    | some p =>
      match pf o.avgExecutionPrice with
      | none => none
      | some ap =>
        let status :=
          if o.isCanceled then OrderStatus.canceled
          else if o.isLive then OrderStatus.active
          else OrderStatus.unset
        let mul : α := if o.side = "sell" then -1 else 1
        match pf o.originalAmount with
        | none => none
        | some oa =>
          match pf o.remainingAmount with
          | none => none
          | some orem =>
            some
              { id := o.id
                symbol := o.symbol
                hidden := o.isHidden
                mtsCreated := trunc ts
                mtsUpdated := trunc ts
                price := p
                priceAvg := ap
                status := status
                amountOrig := oa
                amount := orem * mul
                type := typeFromString o.type }

/-- A concrete decimal-integer parser (optional sign, one or more digits),
a sublanguage of what `strconv.ParseFloat` accepts, used to evaluate the
order-conversion model on closed inputs. -/
def parseIntStr (s : String) : Option Int :=
  match s.data with
  | '-' :: rest =>
    if rest ≠ [] ∧ rest.all Char.isDigit then
      some (-(rest.foldl (fun a c => 10 * a + ((c.toNat : Int) - 48)) 0))
    else none
  | cs =>
    if cs ≠ [] ∧ cs.all Char.isDigit then
      some (cs.foldl (fun a c => 10 * a + ((c.toNat : Int) - 48)) 0)
    else none

/-! ### Association-list lemmas -/

theorem getEntry_setEntry_self {α : Type} (l : List (String × α)) (k : String) (v : α) :
    getEntry (setEntry l k v) k = some v := by
  induction l with
  | nil => simp [setEntry, getEntry]
  | cons p rest ih =>
    obtain ⟨k', v'⟩ := p
    by_cases h : k' = k
    · simp [setEntry, getEntry, h]
    · simp [setEntry, getEntry, h, ih]

theorem mem_setEntry {α : Type} (l : List (String × α)) (k : String) (v : α)
    (p : String × α) (hp : p ∈ setEntry l k v) : p = (k, v) ∨ p ∈ l := by
  induction l with
  | nil => simpa [setEntry] using hp
  | cons q rest ih =>
    obtain ⟨k', v'⟩ := q
    by_cases h : k' = k
    · simp only [setEntry, if_pos h] at hp
      rcases List.mem_cons.mp hp with h1 | h1
      · exact Or.inl h1
      · exact Or.inr (List.mem_cons_of_mem _ h1)
    · simp only [setEntry, if_neg h] at hp
      rcases List.mem_cons.mp hp with h1 | h1
      · exact Or.inr (h1 ▸ List.mem_cons_self _ _)
      · rcases ih h1 with h2 | h2
        · exact Or.inl h2
        · exact Or.inr (List.mem_cons_of_mem _ h2)

theorem getEntry_eq_some_of_mem {α : Type} (l : List (String × α)) (k : String) (v : α)
    (hmem : (k, v) ∈ l) (hnd : (l.map Prod.fst).Nodup) : getEntry l k = some v := by
  induction l with
  | nil => cases hmem
  | cons q rest ih =>
    obtain ⟨k', v'⟩ := q
    simp only [List.map_cons, List.nodup_cons] at hnd
    rcases List.mem_cons.mp hmem with h1 | h1
    · injection h1 with hk hv
      subst hk; subst hv
      simp [getEntry]
    · have hne : k' ≠ k := by
        intro he
        exact hnd.1 (he ▸ List.mem_map_of_mem Prod.fst h1)
      simp [getEntry, hne, ih h1 hnd.2]

theorem getEntry_eq_none_of_forall {α : Type} (l : List (String × α)) (k : String)
    (h : ∀ p ∈ l, p.1 ≠ k) : getEntry l k = none := by
  induction l with
  | nil => rfl
  | cons q rest ih =>
    obtain ⟨k', v'⟩ := q
    have hne : k' ≠ k := h (k', v') (List.mem_cons_self _ _)
    simp [getEntry, hne, ih fun p hp => h p (List.mem_cons_of_mem _ hp)]

theorem findKeyByValue_eq_none_of_forall (l : List (String × String)) (s : String)
    (h : ∀ p ∈ l, p.2 ≠ s) : findKeyByValue l s = none := by
  induction l with
  | nil => rfl
  | cons q rest ih =>
    obtain ⟨bfx, cp⟩ := q
    have hne : cp ≠ s := h (bfx, cp) (List.mem_cons_self _ _)
    simp [findKeyByValue, hne, ih fun p hp => h p (List.mem_cons_of_mem _ hp)]

theorem findKeyByValue_of_unique (l : List (String × String)) (ex sym : String)
    (hmem : (ex, sym) ∈ l) (huniq : ∀ p ∈ l, p.2 = sym → p.1 = ex) :
    findKeyByValue l sym = some ex := by
  induction l with
  | nil => cases hmem
  | cons q rest ih =>
    obtain ⟨bfx, cp⟩ := q
    by_cases h : cp = sym
    · have : bfx = ex := huniq (bfx, cp) (List.mem_cons_self _ _) h
      simp [findKeyByValue, h, this]
    · have hmem' : (ex, sym) ∈ rest := by
        rcases List.mem_cons.mp hmem with h1 | h1
        · exact absurd (congrArg Prod.snd h1.symm) h
        · exact h1
      simp [findKeyByValue, h,
        ih hmem' fun p hp hv => huniq p (List.mem_cons_of_mem _ hp) hv]

/-! ### Shape lemmas about `parse` -/

theorem parse_counterparty_of_not_header (f : FileSymbology) (line : String)
    (hhdr : (hasPrefixLB line && hasSuffixRB line) = false) :
    (parse f line).counterparty = f.counterparty := by
  rcases hs : splitEq line with _ | ⟨s0, _ | ⟨s1, rest⟩⟩ <;> simp [parse, hhdr, hs]

theorem parse_counterparties_mem (f : FileSymbology) (line : String)
    (p : String × Symbolset) (hp : p ∈ (parse f line).counterparties) :
    p.1 = (parse f line).counterparty ∨ p ∈ f.counterparties := by
  cases hb : (hasPrefixLB line && hasSuffixRB line) <;>
    rcases hs : splitEq line with _ | ⟨s0, _ | ⟨s1, rest⟩⟩ <;>
      simp only [parse, hb, hs, Bool.false_eq_true, if_false, if_true] at hp ⊢
  · exact Or.inr hp
  · exact Or.inr hp
  · rcases mem_setEntry _ _ _ _ hp with h | h
    · exact Or.inl (congrArg Prod.fst h)
    · exact Or.inr h
  · exact Or.inr hp
  · exact Or.inr hp
  · rcases mem_setEntry _ _ _ _ hp with h | h
    · exact Or.inl (congrArg Prod.fst h)
    · exact Or.inr h

/-! ### Claim C1 -/

/-- C1 counterexample: parsing a configuration consisting only of the header
line `[N]` leaves `counterparties` empty — the key `N` is absent (so a query
reports unknown counterparty), contradicting the claim that the header alone
creates an empty symbol set under `N`. -/
theorem c1_counterexample :
    (parseLines ["[N]"]).counterparties = [] ∧
    getEntry (parseLines ["[N]"]).counterparties "N" = none ∧
    toBitfinex (parseLines ["[N]"]) "tBTCUSD" "N" = none := by
  decide

/-- C1 (amended): a section-header line containing no `=` sets the parse
cursor to the bracket-trimmed name but leaves `counterparties` untouched; the
entry for a counterparty is only created by a later mapping line, so a query
for a header-only counterparty reports unknown counterparty. -/
theorem c1_header_only_creates_no_entry (f : FileSymbology) (line : String)
    (h1 : hasPrefixLB line = true) (h2 : hasSuffixRB line = true)
    (h3 : (splitEq line).length < 2) :
    (parse f line).counterparties = f.counterparties ∧
    (parse f line).counterparty = trimBrackets line := by
  rcases hs : splitEq line with _ | ⟨s0, _ | ⟨s1, rest⟩⟩
  · exact ⟨by simp [parse, h1, h2, hs], by simp [parse, h1, h2, hs]⟩
  · exact ⟨by simp [parse, h1, h2, hs], by simp [parse, h1, h2, hs]⟩
  · rw [hs] at h3
    simp only [List.length_cons] at h3
    omega

/-- C1 witness: the amended statement evaluated on the header line `[N]`
starting from the empty table. -/
theorem c1_header_only_creates_no_entry_witness :
    (parse { counterparty := "", counterparties := [] } "[N]").counterparties = [] ∧
    (parse { counterparty := "", counterparties := [] } "[N]").counterparty = "N" := by
  have h := c1_header_only_creates_no_entry
    { counterparty := "", counterparties := [] } "[N]" (by decide) (by decide) (by decide)
  exact ⟨h.1, h.2.trans (by decide)⟩

/-! ### Claim C2 -/

/-- C2 counterexample: the line `a=b=c` has two `=` characters, yet parsing
it (after the header `[C]`) does change the table: it creates the entry for
`C` and records the mapping `a → b`, so the line is not ignored. -/
theorem c2_counterexample :
    (parseLines ["[C]"]).counterparties = [] ∧
    (parseLines ["[C]", "a=b=c"]).counterparties =
      [("C", { symbols := [("a", "b")], passthrough := false })] ∧
    fromBitfinex (parseLines ["[C]", "a=b=c"]) "a" "C" = some "b" := by
  decide

/-- C2 (amended): a non-header line whose `=`-split has at least two
segments is processed as the pair of its first two segments, discarding the
rest: it sets the current section's passthrough flag when the segments are
`passthrough`/`true` case-insensitively, and otherwise records the mapping
first-segment → second-segment; only lines with no `=` at all are ignored. -/
theorem c2_multi_eq_line_is_processed (f : FileSymbology) (line s0 s1 : String)
    (rest : List String) (hs : splitEq line = s0 :: s1 :: rest)
    (hhdr : (hasPrefixLB line && hasSuffixRB line) = false) :
    (parse f line).counterparty = f.counterparty ∧
    ∃ ss, getEntry (parse f line).counterparties f.counterparty = some ss ∧
      ((toLowerStr s0 = "passthrough" ∧ toLowerStr s1 = "true") →
        ss.passthrough = true) ∧
      (¬ (toLowerStr s0 = "passthrough" ∧ toLowerStr s1 = "true") →
        ss.get s0 = some s1) := by
  refine ⟨parse_counterparty_of_not_header f line hhdr, ?_⟩
  simp only [parse, hhdr, Bool.false_eq_true, if_false, hs]
  by_cases hp : toLowerStr s0 = "passthrough" ∧ toLowerStr s1 = "true"
  · exact ⟨_, getEntry_setEntry_self .., fun _ => by simp [hp], fun h => absurd hp h⟩
  · refine ⟨_, getEntry_setEntry_self .., fun h => absurd h hp, fun _ => ?_⟩
    simp only [if_neg hp]
    exact getEntry_setEntry_self ..

/-- C2 witness: the amended statement evaluated on the line `a=b=c` in
section `C`: the cursor stays `C` and the mapping `a → b` is recorded. -/
theorem c2_multi_eq_line_is_processed_witness :
    (parse (parseLines ["[C]"]) "a=b=c").counterparty = "C" ∧
    getEntry (parse (parseLines ["[C]"]) "a=b=c").counterparties "C" =
      some { symbols := [("a", "b")], passthrough := false } ∧
    ({ symbols := [("a", "b")], passthrough := false } : Symbolset).get "a" = some "b" := by
  have h := c2_multi_eq_line_is_processed (parseLines ["[C]"]) "a=b=c" "a" "b" ["c"]
    (by decide) (by decide)
  exact ⟨h.1.trans (by decide), by decide, by decide⟩

/-! ### Claim C3 -/

/-- C3 counterexample: the single mapping line `a=b` with no prior section
header does not leave `counterparties` empty: it creates an entry under the
implicit empty-string counterparty name. -/
theorem c3_counterexample :
    (parseLines ["a=b"]).counterparties =
      [("", { symbols := [("a", "b")], passthrough := false })] ∧
    (parseLines ["a=b"]).counterparties ≠ [] := by
  decide

/-- Folding `parse` over non-header lines keeps the cursor at `""` and keeps
every counterparty key equal to `""`. -/
theorem foldl_parse_no_header_empty_key (lines : List String) :
    ∀ f : FileSymbology, f.counterparty = "" →
      (∀ p ∈ f.counterparties, p.1 = "") →
      (∀ l ∈ lines, (hasPrefixLB l && hasSuffixRB l) = false) →
      (List.foldl parse f lines).counterparty = "" ∧
        ∀ p ∈ (List.foldl parse f lines).counterparties, p.1 = "" := by
  induction lines with
  | nil => exact fun f h1 h2 _ => ⟨h1, h2⟩
  | cons l rest ih =>
    intro f h1 h2 h3
    have hl := h3 l (List.mem_cons_self _ _)
    have hc : (parse f l).counterparty = "" :=
      (parse_counterparty_of_not_header f l hl).trans h1
    have hk : ∀ p ∈ (parse f l).counterparties, p.1 = "" := by
      intro p hp
      rcases parse_counterparties_mem f l p hp with h | h
      · exact h.trans hc
      · exact h2 p h
    exact ih (parse f l) hc hk fun l' hl' => h3 l' (List.mem_cons_of_mem _ hl')

/-- C3 (amended): in a configuration with no section header among its lines,
mapping lines are not dropped but attached to the implicit counterparty
whose name is the empty string: every key of the resulting `counterparties`
is `""`, so no named counterparty entry can exist without a prior header,
but an empty-string entry can. -/
theorem c3_no_header_only_empty_key (lines : List String)
    (h : ∀ l ∈ lines, (hasPrefixLB l && hasSuffixRB l) = false) :
    ∀ p ∈ (parseLines lines).counterparties, p.1 = "" :=
  (foldl_parse_no_header_empty_key lines
    { counterparty := "", counterparties := [] } rfl (by simp) h).2

/-- C3 witness: the amended statement evaluated on the one-line
configuration `a=b`, whose table has exactly the empty-string entry. -/
theorem c3_no_header_only_empty_key_witness :
    (parseLines ["a=b"]).counterparties =
      [("", { symbols := [("a", "b")], passthrough := false })] ∧
    ("", ({ symbols := [("a", "b")], passthrough := false } : Symbolset)).1 = "" := by
  refine ⟨by decide, ?_⟩
  exact c3_no_header_only_empty_key ["a=b"] (by decide) _ (by decide)

/-! ### Claim C4 -/

/-- C4 counterexample: in the parsed table `[C]; a=X; b=X` both pairs
`(a, X)` and `(b, X)` are present in a non-passthrough symbol set, but
`ToBitfinex("X", "C")` returns a single result, so it cannot equal `a` and
`b` at once — the claimed round-trip fails for at least one of the two
configured pairs (whichever key the map scan does not return first). -/
theorem c4_counterexample :
    getEntry (parseLines ["[C]", "a=X", "b=X"]).counterparties "C" =
      some { symbols := [("a", "X"), ("b", "X")], passthrough := false } ∧
    ¬ (toBitfinex (parseLines ["[C]", "a=X", "b=X"]) "X" "C" = some "a" ∧
       toBitfinex (parseLines ["[C]", "a=X", "b=X"]) "X" "C" = some "b") := by
  decide

/-- C4 (amended): the two translation directions round-trip for a configured
pair `(ex, sym)` of a non-passthrough counterparty provided the pair's value
is unique — no other entry of that symbol set carries the value `sym` (the
symbol-set keys are unique by map semantics). -/
theorem c4_roundtrip_of_unique_value (f : FileSymbology) (cp ex sym : String)
    (ss : Symbolset) (hcp : getEntry f.counterparties cp = some ss)
    (hpt : ss.passthrough = false)
    (hmem : (ex, sym) ∈ ss.symbols)
    (hkeys : (ss.symbols.map Prod.fst).Nodup)
    (hval : ∀ p ∈ ss.symbols, p.2 = sym → p.1 = ex) :
    fromBitfinex f ex cp = some sym ∧ toBitfinex f sym cp = some ex := by
  constructor
  · simp only [fromBitfinex, hcp, hpt, if_false, Symbolset.get]
    exact getEntry_eq_some_of_mem ss.symbols ex sym hmem hkeys
  · simp only [toBitfinex, hcp, hpt, if_false]
    exact findKeyByValue_of_unique ss.symbols ex sym hmem hval

/-- C4 witness: the amended statement evaluated on the table
`[Bloomberg]; tBTCUSD=BXY`, where the value `BXY` is unique. -/
theorem c4_roundtrip_of_unique_value_witness :
    fromBitfinex (parseLines ["[Bloomberg]", "tBTCUSD=BXY"]) "tBTCUSD" "Bloomberg" =
      some "BXY" ∧
    toBitfinex (parseLines ["[Bloomberg]", "tBTCUSD=BXY"]) "BXY" "Bloomberg" =
      some "tBTCUSD" :=
  c4_roundtrip_of_unique_value (parseLines ["[Bloomberg]", "tBTCUSD=BXY"])
    "Bloomberg" "tBTCUSD" "BXY" { symbols := [("tBTCUSD", "BXY")], passthrough := false }
    (by decide) (by decide) (by decide) (by decide) (by decide)

/-! ### Claim C5 -/

/-- C5 (confirmed): for a counterparty whose symbol set has the passthrough
flag set, both translation directions return the queried non-empty symbol
unchanged with a found outcome, whatever the set's entries hold. -/
theorem c5_passthrough_identity (f : FileSymbology) (cp s : String)
    (ss : Symbolset) (hcp : getEntry f.counterparties cp = some ss)
    (hpt : ss.passthrough = true) (hs : s ≠ "") :
    toBitfinex f s cp = some s ∧ fromBitfinex f s cp = some s := by
  constructor
  · simp [toBitfinex, hcp, hpt]
  · simp [fromBitfinex, hcp, hpt]

/-- C5 witness: the table `[Reuters]; passthrough=true` translates
`tETHUSD` to itself in both directions. -/
theorem c5_passthrough_identity_witness :
    toBitfinex (parseLines ["[Reuters]", "passthrough=true"]) "tETHUSD" "Reuters" =
      some "tETHUSD" ∧
    fromBitfinex (parseLines ["[Reuters]", "passthrough=true"]) "tETHUSD" "Reuters" =
      some "tETHUSD" :=
  c5_passthrough_identity (parseLines ["[Reuters]", "passthrough=true"])
    "Reuters" "tETHUSD" { symbols := [], passthrough := true }
    (by decide) (by decide) (by decide)

/-! ### Claim C6 -/

/-- C6 (confirmed): an absent counterparty yields the not-found outcome in
both directions for any symbol; a present non-passthrough counterparty
yields the not-found outcome from `ToBitfinex` when no entry's value matches
the symbol, and from `FromBitfinex` when no entry's key matches it — never a
panic and never a default translated value. -/
theorem c6_not_found_outcomes (f : FileSymbology) (s cp : String) :
    (getEntry f.counterparties cp = none →
      toBitfinex f s cp = none ∧ fromBitfinex f s cp = none) ∧
    (∀ ss, getEntry f.counterparties cp = some ss → ss.passthrough = false →
      ((∀ p ∈ ss.symbols, p.2 ≠ s) → toBitfinex f s cp = none) ∧
      ((∀ p ∈ ss.symbols, p.1 ≠ s) → fromBitfinex f s cp = none)) := by
  refine ⟨fun h => ⟨by simp [toBitfinex, h], by simp [fromBitfinex, h]⟩,
    fun ss hcp hpt => ⟨fun hv => ?_, fun hk => ?_⟩⟩
  · simp only [toBitfinex, hcp, hpt, if_false]
    exact findKeyByValue_eq_none_of_forall ss.symbols s hv
  · simp only [fromBitfinex, hcp, hpt, if_false, Symbolset.get]
    exact getEntry_eq_none_of_forall ss.symbols s hk

/-- C6 witness: on the table `[C]; a=X`, the unknown counterparty `Nope`
and the unmapped symbol `z` of the known counterparty `C` all report the
not-found outcome in the applicable direction. -/
theorem c6_not_found_outcomes_witness :
    (toBitfinex (parseLines ["[C]", "a=X"]) "z" "Nope" = none ∧
     fromBitfinex (parseLines ["[C]", "a=X"]) "z" "Nope" = none) ∧
    toBitfinex (parseLines ["[C]", "a=X"]) "z" "C" = none ∧
    fromBitfinex (parseLines ["[C]", "a=X"]) "z" "C" = none := by
  have h1 := (c6_not_found_outcomes (parseLines ["[C]", "a=X"]) "z" "Nope").1 (by decide)
  have h2 := (c6_not_found_outcomes (parseLines ["[C]", "a=X"]) "z" "C").2
    { symbols := [("a", "X")], passthrough := false } (by decide) (by decide)
  exact ⟨h1, h2.1 (by decide), h2.2 (by decide)⟩

/-! ### Characterization of the order conversion -/

theorem typeFromString_eq_unset (t : String)
    (h : t ∉ (["market", "limit", "exchange limit", "stop", "trailing-stop"] :
      List String)) : typeFromString t = OrderType.unset := by
  simp only [List.mem_cons, List.mem_singleton, not_or] at h
  obtain ⟨h1, h2, h3, h4, h5⟩ := h
  simp [typeFromString, h1, h2, h3, h4, h5]

theorem orderFromV1Order_eq_some {α : Type} [CommRing α] (pf : String → Option α)
    (trunc : α → Int) (o : V1Order) (out : Order α) :
    orderFromV1Order pf trunc o = some out ↔
      ∃ ts p ap oa orem, pf o.timestamp = some ts ∧ pf o.price = some p ∧
        pf o.avgExecutionPrice = some ap ∧ pf o.originalAmount = some oa ∧
        pf o.remainingAmount = some orem ∧
        out = { id := o.id, symbol := o.symbol, hidden := o.isHidden,
                mtsCreated := trunc ts, mtsUpdated := trunc ts,
                price := p, priceAvg := ap,
                status := if o.isCanceled then OrderStatus.canceled
                          else if o.isLive then OrderStatus.active
                          else OrderStatus.unset,
                amountOrig := oa,
                amount := orem * (if o.side = "sell" then -1 else 1),
                type := typeFromString o.type } := by
  constructor
  · intro h
    rcases h1 : pf o.timestamp with _ | ts <;>
      rcases h2 : pf o.price with _ | p <;>
        rcases h3 : pf o.avgExecutionPrice with _ | ap <;>
          rcases h4 : pf o.originalAmount with _ | oa <;>
            rcases h5 : pf o.remainingAmount with _ | orem <;>
              simp only [orderFromV1Order, h1, h2, h3, h4, h5,
                reduceCtorEq, Option.some.injEq] at h
    exact ⟨ts, p, ap, oa, orem, rfl, rfl, rfl, rfl, rfl, h.symm⟩
  · rintro ⟨ts, p, ap, oa, orem, h1, h2, h3, h4, h5, rfl⟩
    simp only [orderFromV1Order, h1, h2, h3, h4, h5]

/-! ### Claim C7 -/

/-- C7 (confirmed): the conversion returns no object exactly when one of the
timestamp, price, average-execution-price, original-amount, or
remaining-amount strings fails to parse; when all five parse it succeeds,
and unrecognized state-flag combinations, side strings and type strings
yield unset status, a buy-signed (unnegated) amount, and unset type
respectively, never a failure. -/
theorem c7_failure_iff_unparseable {α : Type} [CommRing α] (pf : String → Option α)
    (trunc : α → Int) (o : V1Order) :
    (orderFromV1Order pf trunc o = none ↔
      pf o.timestamp = none ∨ pf o.price = none ∨ pf o.avgExecutionPrice = none ∨
        pf o.originalAmount = none ∨ pf o.remainingAmount = none) ∧
    (∀ out : Order α, orderFromV1Order pf trunc o = some out →
      (o.isCanceled = false → o.isLive = false → out.status = OrderStatus.unset) ∧
      (o.type ∉ (["market", "limit", "exchange limit", "stop", "trailing-stop"] :
          List String) → out.type = OrderType.unset) ∧
      (o.side ≠ "sell" → pf o.remainingAmount = some out.amount)) := by
  constructor
  · rcases h1 : pf o.timestamp with _ | ts <;>
      rcases h2 : pf o.price with _ | p <;>
        rcases h3 : pf o.avgExecutionPrice with _ | ap <;>
          rcases h4 : pf o.originalAmount with _ | oa <;>
            rcases h5 : pf o.remainingAmount with _ | orem <;>
              simp [orderFromV1Order, h1, h2, h3, h4, h5]
  · intro out hout
    rw [orderFromV1Order_eq_some] at hout
    obtain ⟨ts, p, ap, oa, orem, h1, h2, h3, h4, h5, rfl⟩ := hout
    refine ⟨fun hc hl => by simp [hc, hl], fun hT => typeFromString_eq_unset o.type hT,
      fun hside => ?_⟩
    show pf o.remainingAmount = some (orem * (if o.side = "sell" then -1 else 1))
    rw [if_neg hside, mul_one]
    exact h5

/-- C7 witness: with the integer parser, an order whose price is the
unparseable string `x` converts to no object, and a fully parseable order
with unrecognized flags, side and type converts to an order with unset
status, unset type and unnegated amount. -/
theorem c7_failure_iff_unparseable_witness :
    orderFromV1Order parseIntStr (fun x : Int => x)
      { id := 1, symbol := "tBTCUSD", isHidden := false, timestamp := "100",
        price := "x", avgExecutionPrice := "0", side := "buy",
        originalAmount := "7", remainingAmount := "7", isCanceled := false,
        isLive := false, type := "weird" } = none ∧
    ({ id := 1, symbol := "tBTCUSD", hidden := false, mtsCreated := 100,
       mtsUpdated := 100, price := 5, priceAvg := 0,
       status := OrderStatus.unset, amountOrig := 7, amount := 7,
       type := OrderType.unset } : Order Int).status = OrderStatus.unset ∧
    ({ id := 1, symbol := "tBTCUSD", hidden := false, mtsCreated := 100,
       mtsUpdated := 100, price := 5, priceAvg := 0,
       status := OrderStatus.unset, amountOrig := 7, amount := 7,
       type := OrderType.unset } : Order Int).type = OrderType.unset ∧
    parseIntStr "7" =
      some ({ id := 1, symbol := "tBTCUSD", hidden := false, mtsCreated := 100,
              mtsUpdated := 100, price := 5, priceAvg := 0,
              status := OrderStatus.unset, amountOrig := 7, amount := 7,
              type := OrderType.unset } : Order Int).amount := by
  refine ⟨(c7_failure_iff_unparseable parseIntStr (fun x : Int => x)
      { id := 1, symbol := "tBTCUSD", isHidden := false, timestamp := "100",
        price := "x", avgExecutionPrice := "0", side := "buy",
        originalAmount := "7", remainingAmount := "7", isCanceled := false,
        isLive := false, type := "weird" }).1.mpr
      (Or.inr (Or.inl (by decide))), ?_⟩
  have h := (c7_failure_iff_unparseable parseIntStr (fun x : Int => x)
      { id := 1, symbol := "tBTCUSD", isHidden := false, timestamp := "100",
        price := "5", avgExecutionPrice := "0", side := "buy",
        originalAmount := "7", remainingAmount := "7", isCanceled := false,
        isLive := false, type := "weird" }).2
      { id := 1, symbol := "tBTCUSD", hidden := false, mtsCreated := 100,
        mtsUpdated := 100, price := 5, priceAvg := 0,
        status := OrderStatus.unset, amountOrig := 7, amount := 7,
        type := OrderType.unset } (by decide)
  exact ⟨h.1 rfl rfl, h.2.1 (by decide), h.2.2 (by decide)⟩

/-! ### Claim C8 -/

/-- C8 counterexample: an order whose remaining-amount string parses to the
negative number `-2` and whose side is `buy` converts to the signed amount
`-2`, not to `+2` — the code multiplies the parsed value by `±1` and does
not take its magnitude, so a non-sell side does not guarantee a positive
sign (the string `-2` is likewise accepted by `strconv.ParseFloat`). -/
theorem c8_counterexample :
    ({ id := 3, symbol := "tBTCUSD", isHidden := false, timestamp := "1",
       price := "5", avgExecutionPrice := "0", side := "buy",
       originalAmount := "-2", remainingAmount := "-2", isCanceled := false,
       isLive := true, type := "limit" } : V1Order).side ≠ "sell" ∧
    parseIntStr "-2" = some (-2) ∧
    (orderFromV1Order parseIntStr (fun x : Int => x)
      { id := 3, symbol := "tBTCUSD", isHidden := false, timestamp := "1",
        price := "5", avgExecutionPrice := "0", side := "buy",
        originalAmount := "-2", remainingAmount := "-2", isCanceled := false,
        isLive := true, type := "limit" }).map Order.amount = some (-2) ∧
    (orderFromV1Order parseIntStr (fun x : Int => x)
      { id := 3, symbol := "tBTCUSD", isHidden := false, timestamp := "1",
        price := "5", avgExecutionPrice := "0", side := "buy",
        originalAmount := "-2", remainingAmount := "-2", isCanceled := false,
        isLive := true, type := "limit" }).map Order.amount ≠ some 2 := by
  decide

/-- C8 (amended): for every successfully normalized order, the signed
remaining quantity equals the parsed remaining-amount value negated exactly
when the side indicator string is `sell`, and equal to the parsed value
unchanged for every other side string (so when the parsed value is
nonnegative, the sign is negative exactly for `sell`). -/
theorem c8_amount_negated_iff_sell {α : Type} [CommRing α] (pf : String → Option α)
    (trunc : α → Int) (o : V1Order) (out : Order α) (r : α)
    (hout : orderFromV1Order pf trunc o = some out)
    (hr : pf o.remainingAmount = some r) :
    out.amount = if o.side = "sell" then -r else r := by
  rw [orderFromV1Order_eq_some] at hout
  obtain ⟨ts, p, ap, oa, orem, h1, h2, h3, h4, h5, rfl⟩ := hout
  rw [h5, Option.some.injEq] at hr
  subst hr
  show orem * (if o.side = "sell" then -1 else 1) =
    if o.side = "sell" then -orem else orem
  by_cases hside : o.side = "sell"
  · simp [hside]
  · simp [hside]

/-- C8 witness: a `sell` order with remaining amount `3` converts with
signed amount `-3`, matching the amended sign rule. -/
theorem c8_amount_negated_iff_sell_witness :
    orderFromV1Order parseIntStr (fun x : Int => x)
      { id := 2, symbol := "tETHUSD", isHidden := false, timestamp := "9",
        price := "5", avgExecutionPrice := "4", side := "sell",
        originalAmount := "3", remainingAmount := "3", isCanceled := false,
        isLive := true, type := "limit" } =
      some { id := 2, symbol := "tETHUSD", hidden := false, mtsCreated := 9,
             mtsUpdated := 9, price := 5, priceAvg := 4,
             status := OrderStatus.active, amountOrig := 3, amount := -3,
             type := OrderType.limit } ∧
    ({ id := 2, symbol := "tETHUSD", hidden := false, mtsCreated := 9,
       mtsUpdated := 9, price := 5, priceAvg := 4,
       status := OrderStatus.active, amountOrig := 3, amount := -3,
       type := OrderType.limit } : Order Int).amount =
      if ({ id := 2, symbol := "tETHUSD", isHidden := false, timestamp := "9",
            price := "5", avgExecutionPrice := "4", side := "sell",
            originalAmount := "3", remainingAmount := "3", isCanceled := false,
            isLive := true, type := "limit" } : V1Order).side = "sell"
      then -(3 : Int) else 3 := by
  refine ⟨by decide, ?_⟩
  exact c8_amount_negated_iff_sell parseIntStr (fun x : Int => x)
    { id := 2, symbol := "tETHUSD", isHidden := false, timestamp := "9",
      price := "5", avgExecutionPrice := "4", side := "sell",
      originalAmount := "3", remainingAmount := "3", isCanceled := false,
      isLive := true, type := "limit" }
    { id := 2, symbol := "tETHUSD", hidden := false, mtsCreated := 9,
      mtsUpdated := 9, price := 5, priceAvg := 4,
      status := OrderStatus.active, amountOrig := 3, amount := -3,
      type := OrderType.limit } 3 (by decide) (by decide)

/-! ### Claim C10 -/

/-- C10 (confirmed): when a source order has both the canceled and the live
flag set, the conversion assigns status Canceled — the canceled case of the
status switch takes precedence over the live case. -/
theorem c10_canceled_takes_precedence {α : Type} [CommRing α]
    (pf : String → Option α) (trunc : α → Int) (o : V1Order) (out : Order α)
    (hc : o.isCanceled = true) (hl : o.isLive = true)
    (hout : orderFromV1Order pf trunc o = some out) :
    out.status = OrderStatus.canceled := by
  rw [orderFromV1Order_eq_some] at hout
  obtain ⟨ts, p, ap, oa, orem, h1, h2, h3, h4, h5, rfl⟩ := hout
  show (if o.isCanceled then OrderStatus.canceled
        else if o.isLive then OrderStatus.active else OrderStatus.unset) =
    OrderStatus.canceled
  simp [hc]

/-- C10 witness: an order with both flags set converts with status
Canceled. -/
theorem c10_canceled_takes_precedence_witness :
    ({ id := 4, symbol := "tBTCUSD", hidden := false, mtsCreated := 1,
       mtsUpdated := 1, price := 5, priceAvg := 0,
       status := OrderStatus.canceled, amountOrig := 1, amount := 1,
       type := OrderType.market } : Order Int).status = OrderStatus.canceled :=
  c10_canceled_takes_precedence parseIntStr (fun x : Int => x)
    { id := 4, symbol := "tBTCUSD", isHidden := false, timestamp := "1",
      price := "5", avgExecutionPrice := "0", side := "buy",
      originalAmount := "1", remainingAmount := "1", isCanceled := true,
      isLive := true, type := "market" }
    { id := 4, symbol := "tBTCUSD", hidden := false, mtsCreated := 1,
      mtsUpdated := 1, price := 5, priceAvg := 0,
      status := OrderStatus.canceled, amountOrig := 1, amount := 1,
      type := OrderType.market } rfl rfl (by decide)
